import Mathlib

/-!
Shallow embedding of the schema-migration engine of zxteamorg/node.sql:
the migration source tree model (class MigrationSources: loading, mapping,
saving) and the execution engine (class MigrationManager: install, rollback,
capture logger, script dispatch).  Definitions are translated from
src/MigrationSources.ts and the current (install/rollback) lineage of
src/MigrationManager.ts.  Strings are compared with the lexicographic order
on their characters, which models the JavaScript string comparison used by
Array.prototype.sort and the relational operators on the version and script
names that occur here.
-/

/-- Platform end-of-line marker (os.EOL); this development models a POSIX host. -/
def EOL : String := "\n"

/-- Concatenation of the lists produced by applying a function to each element. -/
def listFlatMap (f : α → List β) : List α → List β
  | [] => []
  | a :: l => f a ++ listFlatMap f l

/-- Lookup in an association list; models JavaScript Map.prototype.get. -/
def alookup (k : String) : List (String × β) → Option β
  | [] => none
  | p :: rest => if p.1 = k then some p.2 else alookup k rest

/-- Insert or overwrite one key in an association list, keeping the position of
an existing key; models JavaScript Map.prototype.set. -/
def assocUpsert (m : List (String × β)) (k : String) (v : β) : List (String × β) :=
  match m with
  | [] => [(k, v)]
  | p :: rest => if p.1 = k then (k, v) :: rest else p :: assocUpsert rest k v

/-- Build a JavaScript Map from a list of entries: later entries with the same
key overwrite earlier ones, and iteration order is first-insertion order.
Models the expression new Map(items). -/
def mapOfEntries (items : List (String × β)) : List (String × β) :=
  items.foldl (fun m p => assocUpsert m p.1 p.2) []

/-- Lexicographic comparison of character lists by code point; models the
JavaScript string relational operators on the names occurring here. -/
def charListLe : List Char → List Char → Bool
  | [], _ => true
  | _ :: _, [] => false
  | a :: as, b :: bs =>
    if a.toNat < b.toNat then true
    else if b.toNat < a.toNat then false
    else charListLe as bs

/-- String order used throughout the engine (models the JavaScript comparison
a less-or-equal b). -/
def strLe (a b : String) : Bool := charListLe a.data b.data

/-- Strict string order (models the JavaScript comparison a less-than b). -/
def strLt (a b : String) : Bool := !(strLe b a)

/-- The string order as a relation, for sortedness statements. -/
def StrLe (a b : String) : Prop := strLe a b = true

instance : DecidableRel StrLe := fun a b => instDecidableEqBool (strLe a b) true

theorem charListLe_total : ∀ a b : List Char, charListLe a b = true ∨ charListLe b a = true
  | [], _ => Or.inl rfl
  | _ :: _, [] => Or.inr rfl
  | a :: as, b :: bs => by
    simp only [charListLe]
    rcases Nat.lt_trichotomy a.toNat b.toNat with h | h | h
    · left; simp [h]
    · have h1 : ¬ a.toNat < b.toNat := by omega
      have h2 : ¬ b.toNat < a.toNat := by omega
      simpa [h1, h2] using charListLe_total as bs
    · right; simp [h]

theorem charListLe_trans : ∀ a b c : List Char,
    charListLe a b = true → charListLe b c = true → charListLe a c = true
  | [], _, _ => fun _ _ => rfl
  | _ :: _, [], _ => fun hab _ => by simp [charListLe] at hab
  | _ :: _, _ :: _, [] => fun _ hbc => by simp [charListLe] at hbc
  | a :: as, b :: bs, c :: cs => fun hab hbc => by
    simp only [charListLe] at hab hbc ⊢
    split_ifs at hab hbc ⊢ with h1 h2 h3 h4 h5 h6 <;>
      first
        | rfl
        | omega
        | exact charListLe_trans as bs cs hab hbc

instance : IsTotal String StrLe := ⟨fun a b => charListLe_total a.data b.data⟩

instance : IsTrans String StrLe := ⟨fun a b c => charListLe_trans a.data b.data c.data⟩

/-- Ascending sort by the string order; models Array.prototype.sort() with no
comparator (JavaScript compares strings by code units). -/
def sortAsc (l : List String) : List String :=
  List.insertionSort StrLe l

/-- Descending sort; models Array.prototype.sort().reverse() as used by
MigrationManager.rollback and by VersionBundle rollback script ordering. -/
def sortDesc (l : List String) : List String :=
  (sortAsc l).reverse

/-- Filtering as written in MigrationManager.install and rollback with
Array.prototype.reduce and push: left fold that appends kept elements. -/
def reducePush (p : String → Bool) (l : List String) : List String :=
  l.foldl (fun acc c => if p c then acc ++ [c] else acc) []

/-- Filtering as written with Array.prototype.reduceRight and unshift:
right-to-left fold that prepends kept elements. -/
def reduceRightUnshift (p : String → Bool) (l : List String) : List String :=
  l.foldr (fun c acc => if p c then c :: acc else acc) []

/-- Characters of the last path component; models the basename step of
Node.js path.extname for POSIX paths. -/
def afterLastSlash (s : List Char) : List Char :=
  s.foldl (fun acc c => if c = '/' then [] else acc ++ [c]) []

/-- Position of the last dot character in a list, if any. -/
def lastIndexOfDot : List Char → Option Nat
  | [] => none
  | c :: rest =>
    match lastIndexOfDot rest with
    | some i => some (i + 1)
    | none => if c = '.' then some 0 else none

/-- Extension of the last path component: from the last dot to the end, empty
when there is no dot or the only dot starts the name; models Node.js
path.extname (POSIX) as called by resolveScriptKindByExtension. -/
def extname (p : String) : String :=
  let b := afterLastSlash p.data
  if b = ['.'] ∨ b = ['.', '.'] then ""
  else
    match lastIndexOfDot b with
    | none => ""
    | some 0 => ""
    | some i => ⟨b.drop i⟩

/-- Script kinds, from MigrationSources.Script.Kind. -/
inductive ScriptKind
  | SQL
  | JAVASCRIPT
  | UNKNOWN
deriving DecidableEq

/-- Extension list for SQL scripts (constant sqlFilesExtensions in the source). -/
def sqlFilesExtensions : List String := [".sql"]

/-- Extension list for JavaScript scripts (constant jsFilesExtensions in the source). -/
def jsFilesExtensions : List String := [".js"]

/-- Kind resolution from the file extension, from function
resolveScriptKindByExtension in src/MigrationSources.ts. -/
def resolveScriptKindByExtension (fileName : String) : ScriptKind :=
  let ext := extname fileName
  if ext ∈ sqlFilesExtensions then ScriptKind.SQL
  else if ext ∈ jsFilesExtensions then ScriptKind.JAVASCRIPT
  else ScriptKind.UNKNOWN

/-- One migration file, from class MigrationSources.Script. -/
structure Script where
  name : String
  kind : ScriptKind
  file : String
  content : String
deriving DecidableEq

/-- Script direction, from enum MigrationSources.Direction; the values are the
sub-directory names. -/
inductive Direction
  | install
  | rollback
deriving DecidableEq

/-- Directory name of a direction. -/
def Direction.dirName : Direction → String
  | .install => "install"
  | .rollback => "rollback"

/-- One version of migration scripts, from class MigrationSources.VersionBundle.
The two script collections are JavaScript Maps keyed by script name. -/
structure VersionBundle where
  versionName : String
  installScripts : List (String × Script)
  rollbackScripts : List (String × Script)
deriving DecidableEq

/-- Constructor of VersionBundle: builds the two Maps from the item arrays,
keyed by item name. -/
def VersionBundle.make (versionName : String)
    (installItems rollbackItems : List Script) : VersionBundle :=
  { versionName := versionName
    installScripts := mapOfEntries (installItems.map fun s => (s.name, s))
    rollbackScripts := mapOfEntries (rollbackItems.map fun s => (s.name, s)) }

/-- Sorted install script names, computed in the VersionBundle constructor as
Object.freeze([...this._installScripts.keys()].sort()). -/
def VersionBundle.installScriptNames (b : VersionBundle) : List String :=
  sortAsc (b.installScripts.map Prod.fst)

/-- Sorted rollback script names, computed in the VersionBundle constructor. -/
def VersionBundle.rollbackScriptNames (b : VersionBundle) : List String :=
  sortAsc (b.rollbackScripts.map Prod.fst)

/-- Map lookup behind VersionBundle.getInstallScript; the source throws an
ArgumentError where this returns none. -/
def VersionBundle.getInstallScript (b : VersionBundle) (itemName : String) : Option Script :=
  alookup itemName b.installScripts

/-- Map lookup behind VersionBundle.getRollbackScript; the source throws an
ArgumentError where this returns none. -/
def VersionBundle.getRollbackScript (b : VersionBundle) (itemName : String) : Option Script :=
  alookup itemName b.rollbackScripts

/-- The in-memory migration source tree, from class MigrationSources.  The
field is the private Map from version name to bundle. -/
structure MigrationSources where
  versions : List (String × VersionBundle)
deriving DecidableEq

/-- Constructor of MigrationSources: keys the bundles by version name. -/
def MigrationSources.make (bundles : List VersionBundle) : MigrationSources :=
  { versions := mapOfEntries (bundles.map fun b => (b.versionName, b)) }

/-- Sorted version names, computed in the MigrationSources constructor as
Object.freeze([...this._versions.keys()].sort()). -/
def MigrationSources.versionNames (s : MigrationSources) : List String :=
  sortAsc (s.versions.map Prod.fst)

/-- Map lookup behind MigrationSources.getVersionBundle; the source throws an
ArgumentError where this returns none. -/
def MigrationSources.getVersionBundle (s : MigrationSources) (versionName : String) :
    Option VersionBundle :=
  alookup versionName s.versions

example : sortAsc ["vXXXX", "v0001", "v0002"] = ["v0001", "v0002", "vXXXX"] := by decide
example : extname "99-notes.txt" = ".txt" := by decide
example : extname "/m/v0001/install/01-init.sql" = ".sql" := by decide
example : resolveScriptKindByExtension "a/b.js" = ScriptKind.JAVASCRIPT := by decide
example : resolveScriptKindByExtension "a/b.SQL" = ScriptKind.UNKNOWN := by decide

/-- One regular file on disk: name and UTF-8 decoded content. -/
structure FsFile where
  name : String
  content : String
deriving DecidableEq

/-- One version directory of a migration source tree: the optional install and
rollback sub-directories with their regular files (none models an absent
sub-directory). -/
structure FsVersionDir where
  name : String
  install : Option (List FsFile)
  rollback : Option (List FsFile)
deriving DecidableEq

/-- A migration source tree on disk: the version directories that are the
immediate children of the root (loadFromFilesystem retains directories only). -/
structure FsTree where
  versions : List FsVersionDir
deriving DecidableEq

/-- Read the scripts of one direction directory, as in the inner loops of
MigrationSources.loadFromFilesystem: the script name is the file name, the kind
comes from the extension of the joined path, the file field is the joined path
and the content is the file content. -/
def loadScripts (directory : String) (files : List FsFile) : List Script :=
  files.map fun f =>
    let scriptFile := directory ++ "/" ++ f.name
    { name := f.name
      kind := resolveScriptKindByExtension scriptFile
      file := scriptFile
      content := f.content }

/-- Read one version directory into a VersionBundle, as in the outer loop of
MigrationSources.loadFromFilesystem; an absent direction directory yields an
empty item list. -/
def loadVersionDir (sourceDirectory : String) (d : FsVersionDir) : VersionBundle :=
  let versionDirectory := sourceDirectory ++ "/" ++ d.name
  let installDirectory := versionDirectory ++ "/" ++ Direction.dirName Direction.install
  let rollbackDirectory := versionDirectory ++ "/" ++ Direction.dirName Direction.rollback
  VersionBundle.make d.name
    (match d.install with
     | none => []
     | some files => loadScripts installDirectory files)
    (match d.rollback with
     | none => []
     | some files => loadScripts rollbackDirectory files)

/-- Pure core of MigrationSources.loadFromFilesystem on an existing directory. -/
def loadTree (sourceDirectory : String) (t : FsTree) : MigrationSources :=
  MigrationSources.make (t.versions.map (loadVersionDir sourceDirectory))

/-- Failure surface of MigrationSources.load and loadFromFilesystem; each
constructor records the JavaScript error class thrown by the source (class
NotSupportedUrlSchemaError extends InvalidOperationError, and class
MigrationSources.WrongMigrationDataError extends InvalidOperationError). -/
inductive LoadError
  | wrongMigrationData (message : String)
  | invalidOperationError (message : String)
  | notSupportedUrlSchemaError (message : String)
deriving DecidableEq

/-- MigrationSources.loadFromFilesystem including its existence check; the
argument is none when the source directory does not exist. -/
def loadFromFilesystem (sourceDirectory : String) (t : Option FsTree) :
    Except LoadError MigrationSources :=
  match t with
  | none =>
      Except.error (LoadError.wrongMigrationData
        ("Migration directory \x27" ++ sourceDirectory ++ "\x27 is not exist"))
  | some tree => Except.ok (loadTree sourceDirectory tree)

/-- MigrationSources.load: dispatch on the URI scheme (URL.protocol keeps the
trailing colon).  The file scheme delegates to loadFromFilesystem on the path
converted from the URI; the tar+gz schemes throw InvalidOperationError with the
message given in the source; any other scheme throws NotSupportedUrlSchemaError
whose message interpolates the URI. -/
def MigrationSources.load (protocol : String) (uriText : String)
    (sourceDirectory : String) (t : Option FsTree) : Except LoadError MigrationSources :=
  if protocol = "file:" then loadFromFilesystem sourceDirectory t
  else if protocol = "http+tar+gz:" then
    Except.error (LoadError.invalidOperationError "Not implemented yet")
  else if protocol = "https+tar+gz:" then
    Except.error (LoadError.invalidOperationError "Not implemented yet")
  else
    Except.error (LoadError.notSupportedUrlSchemaError ("Not supported schema: " ++ uriText))

/-- The version directory written by MigrationSources.saveToFilesystem for one
version name: it creates the version directory and both direction directories,
then writes each script content under its script name. -/
def saveVersion (s : MigrationSources) (versionName : String) : FsVersionDir :=
  match s.getVersionBundle versionName with
  | some b =>
      { name := versionName
        install := some (b.installScriptNames.filterMap fun n =>
          (b.getInstallScript n).map fun sc => FsFile.mk n sc.content)
        rollback := some (b.rollbackScriptNames.filterMap fun n =>
          (b.getRollbackScript n).map fun sc => FsFile.mk n sc.content) }
  | none =>
      -- Unreachable when iterating versionNames: they are the keys of the map.
      { name := versionName, install := some [], rollback := some [] }

/-- The tree written into an (existing, empty) destination directory by
MigrationSources.saveToFilesystem: one directory per version name in sorted
order, each with install and rollback sub-directories. -/
def saveTree (s : MigrationSources) : FsTree :=
  { versions := s.versionNames.map (saveVersion s) }

/-- Directory lookup by version name in a tree. -/
def FsTree.findDir (t : FsTree) (v : String) : Option FsVersionDir :=
  alookup v (t.versions.map fun d => (d.name, d))

/-- Information passed to the MigrationSources.map callback. -/
structure MapInfo where
  versionName : String
  direction : Direction
  itemName : String
deriving DecidableEq

/-- One direction of VersionBundle.map (the private static VersionBundle._map):
iterate the sorted item names, look each item up in the Map, apply the callback
to obtain the new content, and keep name, kind and file.  The second result
component records, in order, the (direction, item name) pairs at which the
callback is invoked; the source invokes it exactly where this list records an
element. -/
def mapScriptsWithLog (dir : Direction) (scripts : List (String × Script))
    (f : Script → Direction → String) : List String → List Script × List (Direction × String)
  | [] => ([], [])
  | n :: rest =>
    let tail := mapScriptsWithLog dir scripts f rest
    match alookup n scripts with
    | some item =>
        ({ item with content := f item dir } :: tail.1,
          (dir, item.name) :: tail.2)
    | none =>
        -- Unreachable when iterating the item names: they are the keys of the map.
        tail

/-- VersionBundle.map with its callback invocation log: maps the install
scripts then the rollback scripts and constructs a new bundle from the mapped
item arrays. -/
def VersionBundle.mapWithLog (b : VersionBundle) (f : Script → Direction → String) :
    VersionBundle × List (Direction × String) :=
  let inst := mapScriptsWithLog Direction.install b.installScripts f b.installScriptNames
  let rb := mapScriptsWithLog Direction.rollback b.rollbackScripts f b.rollbackScriptNames
  (VersionBundle.make b.versionName inst.1 rb.1, inst.2 ++ rb.2)

/-- Iteration core of MigrationSources.map over the version names, collecting
the mapped bundles and the full callback invocation log.  The callback of the
source receives the old content and an info record with the version name, the
direction and the item name. -/
def MigrationSources.mapGo (s : MigrationSources) (f : String → MapInfo → String) :
    List String → List VersionBundle × List MapInfo
  | [] => ([], [])
  | v :: rest =>
    let tail := MigrationSources.mapGo s f rest
    match s.getVersionBundle v with
    | some b =>
        let r := b.mapWithLog fun item dir => f item.content (MapInfo.mk v dir item.name)
        (r.1 :: tail.1, r.2.map (fun p => MapInfo.mk v p.1 p.2) ++ tail.2)
    | none =>
        -- Unreachable when iterating versionNames: they are the keys of the map.
        tail

/-- MigrationSources.map together with the list of tuples at which the mapper
callback is invoked, in invocation structure. -/
def MigrationSources.mapWithLog (s : MigrationSources) (f : String → MapInfo → String) :
    MigrationSources × List MapInfo :=
  let r := MigrationSources.mapGo s f s.versionNames
  (MigrationSources.make r.1, r.2)

/-- MigrationSources.map: a new MigrationSources whose script contents are
replaced by the callback result. -/
def MigrationSources.map (s : MigrationSources) (f : String → MapInfo → String) :
    MigrationSources :=
  (s.mapWithLog f).1

/-- The (version name, direction, item name) tuples at which MigrationSources.map
invokes its callback, one list element per invocation. -/
def MigrationSources.mapCallLog (s : MigrationSources) (f : String → MapInfo → String) :
    List MapInfo :=
  (s.mapWithLog f).2

/-- Severity levels of the Logger contract. -/
inductive LogLevel
  | trace
  | debug
  | info
  | warn
  | error
  | fatal
deriving DecidableEq

/-- Join a list of strings with the platform end-of-line marker; models
Array.prototype.join(EOL) as used by MigrationLogger.flush. -/
def joinEOL : List String → String
  | [] => ""
  | [x] => x
  | x :: xs => x ++ EOL ++ joinEOL xs

/-- State of class MigrationManager.MigrationLogger: the messages forwarded to
the wrapped logger (with their severity) and the captured line buffer. -/
structure MigrationLogger where
  forwarded : List (LogLevel × String)
  lines : List String
deriving DecidableEq

/-- A freshly constructed MigrationLogger: empty buffer, nothing forwarded. -/
def MigrationLogger.init : MigrationLogger := { forwarded := [], lines := [] }

/-- MigrationLogger.trace: forward the message verbatim and push the prefixed
line to the buffer. -/
def MigrationLogger.trace (l : MigrationLogger) (message : String) : MigrationLogger :=
  { forwarded := l.forwarded ++ [(LogLevel.trace, message)]
    lines := l.lines ++ ["[TRACE] " ++ message] }

/-- MigrationLogger.debug. -/
def MigrationLogger.debug (l : MigrationLogger) (message : String) : MigrationLogger :=
  { forwarded := l.forwarded ++ [(LogLevel.debug, message)]
    lines := l.lines ++ ["[DEBUG] " ++ message] }

/-- MigrationLogger.info. -/
def MigrationLogger.info (l : MigrationLogger) (message : String) : MigrationLogger :=
  { forwarded := l.forwarded ++ [(LogLevel.info, message)]
    lines := l.lines ++ ["[INFO] " ++ message] }

/-- MigrationLogger.warn. -/
def MigrationLogger.warn (l : MigrationLogger) (message : String) : MigrationLogger :=
  { forwarded := l.forwarded ++ [(LogLevel.warn, message)]
    lines := l.lines ++ ["[WARN] " ++ message] }

/-- MigrationLogger.error. -/
def MigrationLogger.error (l : MigrationLogger) (message : String) : MigrationLogger :=
  { forwarded := l.forwarded ++ [(LogLevel.error, message)]
    lines := l.lines ++ ["[ERROR] " ++ message] }

/-- MigrationLogger.fatal; the source pushes "[FATAL]" + message, with no space
after the bracket, unlike the five other severities. -/
def MigrationLogger.fatal (l : MigrationLogger) (message : String) : MigrationLogger :=
  { forwarded := l.forwarded ++ [(LogLevel.fatal, message)]
    lines := l.lines ++ ["[FATAL]" ++ message] }

/-- Severity dispatch over the six logger methods. -/
def MigrationLogger.logAt (l : MigrationLogger) : LogLevel → String → MigrationLogger
  | LogLevel.trace => l.trace
  | LogLevel.debug => l.debug
  | LogLevel.info => l.info
  | LogLevel.warn => l.warn
  | LogLevel.error => l.error
  | LogLevel.fatal => l.fatal

/-- Apply a list of severity-tagged messages to the logger in order. -/
def MigrationLogger.applyMsgs (l : MigrationLogger) (msgs : List (LogLevel × String)) :
    MigrationLogger :=
  msgs.foldl (fun l p => l.logAt p.1 p.2) l

/-- MigrationLogger.flush: return the buffered lines joined by the platform
end-of-line marker and empty the buffer (this._lines.splice(0).join(EOL)). -/
def MigrationLogger.flush (l : MigrationLogger) : String × MigrationLogger :=
  (joinEOL l.lines, { forwarded := l.forwarded, lines := [] })

/-- Observable interactions of the engine with the SQL provider and the dialect
hooks during one install or rollback run. -/
inductive DbAction
  | stmtExecute (sql : String)
  | execJavaScript (file : String) (content : String)
  | isVersionTableExistQ (result : Bool)
  | createVersionTable
  | verifyVersionTableStructure
  | isVersionLogExistQ (version : String) (result : Bool)
  | insertVersionLogA (version : String) (logText : String)
  | removeVersionLogA (version : String)
deriving DecidableEq

/-- Behaviour of the dialect hooks of a concrete MigrationManager subclass:
the current version reported by getCurrentVersion, whether the version table
exists, and which version log rows exist. -/
structure DialectEnv where
  currentVersion : Option String
  versionTableExists : Bool
  versionLogExists : String → Bool

/-- MigrationManager._executeMigrationSql: trace the statement text (prefixed
by EOL) on the logger it receives, then submit it to the provider.  The first
component is the messages sent to that logger, the second the provider
actions. -/
def executeMigrationSqlEvents (sqlText : String) : List (LogLevel × String) × List DbAction :=
  ([(LogLevel.trace, EOL ++ sqlText)], [DbAction.stmtExecute sqlText])

/-- Kind dispatch for one install script, from the switch statement in
MigrationManager.install: SQL logs info and trace then runs
_executeMigrationSql; JAVASCRIPT logs info and trace then runs
_executeMigrationJavaScript; any other kind only warns. -/
def runInstallScript (version : String) (st : MigrationLogger × List DbAction)
    (script : Script) : MigrationLogger × List DbAction :=
  match script.kind with
  | ScriptKind.SQL =>
      let lg := (st.1.info ("Execute SQL script: " ++ script.name)).trace (EOL ++ script.content)
      let ev := executeMigrationSqlEvents script.content
      (lg.applyMsgs ev.1, st.2 ++ ev.2)
  | ScriptKind.JAVASCRIPT =>
      let lg := (st.1.info ("Execute JS script: " ++ script.name)).trace (EOL ++ script.content)
      (lg, st.2 ++ [DbAction.execJavaScript script.file script.content])
  | ScriptKind.UNKNOWN =>
      (st.1.warn ("Skip script \x27" ++ version ++ ":" ++ script.name
        ++ "\x27 due unknown kind of script"), st.2)

/-- The install script loop of one version: iterate the sorted install script
names, look each script up and dispatch on its kind. -/
def runInstallScripts (bundle : VersionBundle) (version : String)
    (st : MigrationLogger × List DbAction) : List String → MigrationLogger × List DbAction
  | [] => st
  | n :: rest =>
    runInstallScripts bundle version
      (match bundle.getInstallScript n with
       | some script => runInstallScript version st script
       | none => st)  -- unreachable when iterating the names: they are the map keys
      rest

/-- One version transaction of MigrationManager.install: run the scripts with a
fresh capture logger, then flush it and insert the version log row with the
flushed text. -/
def installVersionTx (s : MigrationSources) (version : String) :
    MigrationLogger × List DbAction :=
  match s.getVersionBundle version with
  | some bundle =>
      let st := runInstallScripts bundle version (MigrationLogger.init, [])
        (sortAsc bundle.installScriptNames)
      let logText := (st.1.flush).1
      (st.1, st.2 ++ [DbAction.insertVersionLogA version logText])
  | none =>
      -- Unreachable for scheduled versions: they are the keys of the map.
      (MigrationLogger.init, [])

/-- Version selection of MigrationManager.install: sort ascending, keep the
versions strictly above the current version when there is one, then keep the
versions up to the target version when one is given. -/
def installSchedule (s : MigrationSources) (currentVersion targetVersion : Option String) :
    List String :=
  let availableVersions := sortAsc s.versionNames
  let s1 := match currentVersion with
    | none => availableVersions
    | some cv => reducePush (fun c => strLt cv c) availableVersions
  match targetVersion with
  | none => s1
  | some tv => reduceRightUnshift (fun c => strLe c tv) s1

/-- Observable outcome of one MigrationManager.install invocation: the actions
of the short-lived non-transactional connection that ensures the version table,
followed by one dedicated transaction per scheduled version. -/
structure InstallRun where
  setup : List DbAction
  txs : List (String × List DbAction)
deriving DecidableEq

/-- MigrationManager.install: read the current version, compute the schedule,
ensure the version table on a plain connection (create it only when absent),
then run one transaction per scheduled version in order. -/
def MigrationManager.install (env : DialectEnv) (s : MigrationSources)
    (targetVersion : Option String) : InstallRun :=
  let scheduleVersions := installSchedule s env.currentVersion targetVersion
  { setup :=
      if env.versionTableExists then [DbAction.isVersionTableExistQ true]
      else [DbAction.isVersionTableExistQ false, DbAction.createVersionTable]
    txs := scheduleVersions.map fun version => (version, (installVersionTx s version).2) }

/-- Kind dispatch for one rollback script, from the switch statement in
MigrationManager.rollback: as for install, but the messages go to the injected
logger (this._log) rather than to a capture logger.  The first component is the
messages sent to that logger, the second the provider actions. -/
def rollbackScriptEvents (version : String) (script : Script) :
    List (LogLevel × String) × List DbAction :=
  match script.kind with
  | ScriptKind.SQL =>
      let ev := executeMigrationSqlEvents script.content
      ([(LogLevel.info, "Execute SQL script: " ++ script.name),
        (LogLevel.trace, EOL ++ script.content)] ++ ev.1, ev.2)
  | ScriptKind.JAVASCRIPT =>
      ([(LogLevel.info, "Execute JS script: " ++ script.name),
        (LogLevel.trace, EOL ++ script.content)],
        [DbAction.execJavaScript script.file script.content])
  | ScriptKind.UNKNOWN =>
      ([(LogLevel.warn, "Skip script \x27" ++ version ++ ":" ++ script.name
          ++ "\x27 due unknown kind of script")], [])

/-- Logger messages and provider actions of one rollback script name: look the
script up and dispatch on its kind; the lookup is total when iterating the
names, which are the map keys. -/
def rollbackNameEvents (bundle : VersionBundle) (version : String) (n : String) :
    List (LogLevel × String) × List DbAction :=
  match bundle.getRollbackScript n with
  | some script => rollbackScriptEvents version script
  | none => ([], [])

/-- The rollback script loop of one version: iterate the rollback script names
sorted descending. -/
def runRollbackScripts (bundle : VersionBundle) (version : String)
    (st : List (LogLevel × String) × List DbAction) :
    List String → List (LogLevel × String) × List DbAction
  | [] => st
  | n :: rest =>
    let ev := rollbackNameEvents bundle version n
    runRollbackScripts bundle version (st.1 ++ ev.1, st.2 ++ ev.2) rest

/-- One version transaction of MigrationManager.rollback: first query
isVersionLogExist; when the row is absent, warn and return (a commit with no
effect); otherwise run the rollback scripts in descending name order and remove
the version log row. -/
def rollbackVersionTx (env : DialectEnv) (s : MigrationSources) (version : String) :
    List (LogLevel × String) × List DbAction :=
  if env.versionLogExists version then
    match s.getVersionBundle version with
    | some bundle =>
        let st := runRollbackScripts bundle version
          ([], [DbAction.isVersionLogExistQ version true])
          (sortDesc bundle.rollbackScriptNames)
        (st.1, st.2 ++ [DbAction.removeVersionLogA version])
    | none =>
        -- Unreachable for scheduled versions: they are the keys of the map.
        ([], [DbAction.isVersionLogExistQ version true])
  else
    ([(LogLevel.warn, "Skip rollback for version \x27" ++ version
        ++ "\x27 due this does not present inside database.")],
      [DbAction.isVersionLogExistQ version false])

/-- Version selection of MigrationManager.rollback: sort descending, keep the
versions at or below the current version when there is one, then keep the
versions strictly above the target version when one is given. -/
def rollbackSchedule (s : MigrationSources) (currentVersion targetVersion : Option String) :
    List String :=
  let availableVersions := sortDesc s.versionNames
  let s1 := match currentVersion with
    | none => availableVersions
    | some cv => reducePush (fun c => strLe c cv) availableVersions
  match targetVersion with
  | none => s1
  | some tv => reduceRightUnshift (fun c => strLt tv c) s1

/-- Observable outcome of one MigrationManager.rollback invocation: one
dedicated transaction per scheduled version, each with the messages sent to
the injected logger and the provider actions. -/
structure RollbackRun where
  txs : List (String × (List (LogLevel × String) × List DbAction))

/-- MigrationManager.rollback: read the current version, compute the schedule,
then run one transaction per scheduled version in descending order. -/
def MigrationManager.rollback (env : DialectEnv) (s : MigrationSources)
    (targetVersion : Option String) : RollbackRun :=
  { txs := (rollbackSchedule s env.currentVersion targetVersion).map fun version =>
      (version, rollbackVersionTx env s version) }

/-- Well-formedness of a script map: keys are distinct and each script is keyed
by its own name.  Both hold for every map the source constructs, since the
VersionBundle constructor keys the items by name and a Map has distinct keys. -/
def ScriptMapWf (scripts : List (String × Script)) : Prop :=
  (scripts.map Prod.fst).Nodup ∧ ∀ p ∈ scripts, (Prod.snd p).name = p.1

/-- Well-formedness of a bundle: both script maps are well formed. -/
def VersionBundle.Wf (b : VersionBundle) : Prop :=
  ScriptMapWf b.installScripts ∧ ScriptMapWf b.rollbackScripts

/-- Well-formedness of a sources value: version keys are distinct, each bundle
is keyed by its own version name and is itself well formed. -/
def MigrationSources.Wf (s : MigrationSources) : Prop :=
  (s.versions.map Prod.fst).Nodup ∧
    ∀ p ∈ s.versions, (Prod.snd p).versionName = p.1 ∧ (Prod.snd p).Wf

theorem alookup_eq_none {l : List (String × β)} {k : String} :
    alookup k l = none ↔ k ∉ l.map Prod.fst := by
  induction l with
  | nil => simp [alookup]
  | cons p rest ih =>
    by_cases h : p.1 = k
    · simp [alookup, h]
    · have h2 : ¬ k = p.1 := fun he => h he.symm
      simp [alookup, h, ih, h2]

theorem alookup_mem {l : List (String × β)} {k : String} {b : β}
    (h : alookup k l = some b) : (k, b) ∈ l := by
  induction l with
  | nil => simp [alookup] at h
  | cons p rest ih =>
    by_cases hk : p.1 = k
    · simp only [alookup, if_pos hk] at h
      obtain ⟨k', b'⟩ := p
      cases hk
      cases h
      exact List.mem_cons_self _ _
    · simp only [alookup, if_neg hk] at h
      exact List.mem_cons_of_mem _ (ih h)

theorem alookup_of_mem {l : List (String × β)} {k : String} {b : β}
    (hnd : (l.map Prod.fst).Nodup) (hm : (k, b) ∈ l) : alookup k l = some b := by
  induction l with
  | nil => simp at hm
  | cons p rest ih =>
    simp only [List.map_cons, List.nodup_cons] at hnd
    rcases List.mem_cons.mp hm with h | h
    · cases h
      simp [alookup]
    · have hk : p.1 ≠ k := by
        intro he
        exact hnd.1 (he ▸ (List.mem_map.mpr ⟨(k, b), h, rfl⟩))
      simp [alookup, hk, ih hnd.2 h]

theorem alookup_map_value {l : List α} (k : String) (key : α → String) (f : α → β) :
    alookup k (l.map fun a => (key a, f a)) =
      (alookup k (l.map fun a => (key a, a))).map f := by
  induction l with
  | nil => rfl
  | cons a rest ih =>
    by_cases h : key a = k
    · simp [alookup, h]
    · simp [alookup, h, ih]

theorem alookup_key_map (v : String) (g : String → β) (ks : List String) :
    alookup v (ks.map fun k => (k, g k)) = if v ∈ ks then some (g v) else none := by
  induction ks with
  | nil => simp [alookup]
  | cons k rest ih =>
    by_cases h : k = v
    · subst h
      simp [alookup]
    · have h2 : ¬ v = k := fun he => h he.symm
      simp [alookup, h, ih, List.mem_cons, h2]

theorem assocUpsert_append {m : List (String × β)} {k : String} (v : β)
    (h : k ∉ m.map Prod.fst) : assocUpsert m k v = m ++ [(k, v)] := by
  induction m with
  | nil => rfl
  | cons p rest ih =>
    simp only [List.map_cons, List.mem_cons, not_or] at h
    have h2 : ¬ p.1 = k := fun he => h.1 he.symm
    simp [assocUpsert, h2, ih h.2]

theorem foldl_upsert_append {l : List (String × β)} :
    ∀ acc : List (String × β), ((acc ++ l).map Prod.fst).Nodup →
      l.foldl (fun m p => assocUpsert m p.1 p.2) acc = acc ++ l := by
  induction l with
  | nil => intro acc _; simp
  | cons p rest ih =>
    intro acc hnd
    have hk : p.1 ∉ acc.map Prod.fst := by
      intro hmem
      have : ¬ ((acc ++ p :: rest).map Prod.fst).Nodup := by
        simp only [List.map_append, List.map_cons]
        intro hn
        have := (List.nodup_append.mp hn).2.2
        exact this hmem (by simp)
      exact this hnd
    have step : assocUpsert acc p.1 p.2 = acc ++ [p] := by
      have := assocUpsert_append (m := acc) (k := p.1) p.2 hk
      simpa using this
    have hnd2 : (((acc ++ [p]) ++ rest).map Prod.fst).Nodup := by
      simpa using hnd
    calc (p :: rest).foldl (fun m q => assocUpsert m q.1 q.2) acc
        = rest.foldl (fun m q => assocUpsert m q.1 q.2) (acc ++ [p]) := by
          simp [List.foldl_cons, step]
      _ = (acc ++ [p]) ++ rest := ih (acc ++ [p]) hnd2
      _ = acc ++ p :: rest := by simp

theorem mapOfEntries_eq_self {l : List (String × β)} (h : (l.map Prod.fst).Nodup) :
    mapOfEntries l = l := by
  have := foldl_upsert_append (l := l) [] (by simpa using h)
  simpa [mapOfEntries] using this

theorem reducePush_eq_filter (p : String → Bool) (l : List String) :
    reducePush p l = l.filter p := by
  suffices h : ∀ acc, l.foldl (fun acc c => if p c then acc ++ [c] else acc) acc
      = acc ++ l.filter p by
    simpa [reducePush] using h []
  induction l with
  | nil => intro acc; simp
  | cons c rest ih =>
    intro acc
    by_cases hc : p c
    · simp [List.foldl_cons, hc, ih, List.filter_cons]
    · simp [List.foldl_cons, hc, ih, List.filter_cons]

theorem reduceRightUnshift_eq_filter (p : String → Bool) (l : List String) :
    reduceRightUnshift p l = l.filter p := by
  induction l with
  | nil => rfl
  | cons c rest ih =>
    by_cases hc : p c <;> simp [reduceRightUnshift, List.filter_cons, hc] at ih ⊢ <;>
      exact ih

theorem sortAsc_perm (l : List String) : List.Perm (sortAsc l) l :=
  List.perm_insertionSort StrLe l

theorem sortAsc_sorted (l : List String) : List.Sorted StrLe (sortAsc l) :=
  List.sorted_insertionSort StrLe l

theorem sortAsc_eq_self {l : List String} (h : List.Sorted StrLe l) : sortAsc l = l :=
  List.Sorted.insertionSort_eq h

theorem sortAsc_idem (l : List String) : sortAsc (sortAsc l) = sortAsc l :=
  sortAsc_eq_self (sortAsc_sorted l)

theorem sortAsc_singleton (x : String) : sortAsc [x] = [x] := rfl

theorem sortAsc_nodup {l : List String} (h : l.Nodup) : (sortAsc l).Nodup :=
  ((sortAsc_perm l).nodup_iff).mpr h

theorem mem_sortAsc {l : List String} {a : String} : a ∈ sortAsc l ↔ a ∈ l :=
  (sortAsc_perm l).mem_iff

theorem filterMap_eq_map_of_forall_some {l : List α} {g : α → Option β} {h : α → β}
    (H : ∀ a ∈ l, g a = some (h a)) : l.filterMap g = l.map h := by
  induction l with
  | nil => rfl
  | cons a rest ih =>
    have ha := H a (by simp)
    simp [List.filterMap_cons, ha, ih fun x hx => H x (List.mem_cons_of_mem _ hx)]

theorem listFlatMap_congr {l : List α} {f g : α → List β}
    (H : ∀ a ∈ l, f a = g a) : listFlatMap f l = listFlatMap g l := by
  induction l with
  | nil => rfl
  | cons a rest ih =>
    simp [listFlatMap, H a (by simp), ih fun x hx => H x (List.mem_cons_of_mem _ hx)]

theorem mem_listFlatMap {l : List α} {f : α → List β} {b : β} :
    b ∈ listFlatMap f l ↔ ∃ a ∈ l, b ∈ f a := by
  induction l with
  | nil => simp [listFlatMap]
  | cons a rest ih => simp [listFlatMap, ih, List.mem_append]

theorem runRollbackScripts_eq (bundle : VersionBundle) (version : String) :
    ∀ (ns : List String) (st : List (LogLevel × String) × List DbAction),
      runRollbackScripts bundle version st ns =
        (st.1 ++ listFlatMap (fun n => (rollbackNameEvents bundle version n).1) ns,
          st.2 ++ listFlatMap (fun n => (rollbackNameEvents bundle version n).2) ns) := by
  intro ns
  induction ns with
  | nil => intro st; simp [runRollbackScripts, listFlatMap]
  | cons n rest ih =>
    intro st
    simp [runRollbackScripts, listFlatMap, ih]

/-- Sample install script of version v0001. -/
def scr01 : Script :=
  Script.mk "01-init.sql" ScriptKind.SQL "/m/v0001/install/01-init.sql"
    "CREATE TABLE t1(a INT);"

/-- Sample version v0001 with one SQL install script and one SQL rollback
script. -/
def bundleV0001 : VersionBundle :=
  VersionBundle.make "v0001" [scr01]
    [Script.mk "01-drop.sql" ScriptKind.SQL "/m/v0001/rollback/01-drop.sql" "DROP TABLE t1;"]

/-- Sample version v0002, whose install set also holds a file of unknown kind. -/
def bundleV0002 : VersionBundle :=
  VersionBundle.make "v0002"
    [Script.mk "10-add.sql" ScriptKind.SQL "/m/v0002/install/10-add.sql"
        "CREATE TABLE t2(b INT);",
      Script.mk "99-notes.txt" ScriptKind.UNKNOWN "/m/v0002/install/99-notes.txt" "just notes"]
    [Script.mk "10-del.sql" ScriptKind.SQL "/m/v0002/rollback/10-del.sql" "DROP TABLE t2;"]

/-- Sample version vXXXX with a JavaScript rollback script, as in the
repository test tree. -/
def bundleVX : VersionBundle :=
  VersionBundle.make "vXXXX"
    [Script.mk "1-something.sql" ScriptKind.SQL "/m/vXXXX/install/1-something.sql"
        "CREATE TABLE tx(c INT);"]
    [Script.mk "1-restore.sql" ScriptKind.SQL "/m/vXXXX/rollback/1-restore.sql"
        "DROP TABLE tx;",
      Script.mk "2-drop-something.js" ScriptKind.JAVASCRIPT
        "/m/vXXXX/rollback/2-drop-something.js" "// 2-drop-something.js rollback \n"]

/-- Sample sources used to instantiate the theorems below; they mirror the
sample tree of the repository tests (versions v0001, v0002, vXXXX). -/
def sampleSources : MigrationSources :=
  MigrationSources.make [bundleV0001, bundleV0002, bundleVX]

/-- Claim C1: for every install invocation, the scheduled versions are exactly
the ascending-sorted source version names, filtered to those strictly greater
than the current version when it is non-null and to those at or below the
target version when one is given; the selected versions are executed in
ascending order, each in its own transaction. -/
theorem install_schedule_spec (env : DialectEnv) (s : MigrationSources)
    (targetVersion : Option String) :
    (MigrationManager.install env s targetVersion).txs.map Prod.fst =
      ((sortAsc s.versionNames).filter fun v =>
          match env.currentVersion with
          | none => true
          | some currentVersion => strLt currentVersion v).filter
        (fun v =>
          match targetVersion with
          | none => true
          | some tv => strLe v tv) ∧
    List.Sorted StrLe ((MigrationManager.install env s targetVersion).txs.map Prod.fst) := by
  have hsched : installSchedule s env.currentVersion targetVersion =
      ((sortAsc s.versionNames).filter fun v =>
          match env.currentVersion with
          | none => true
          | some currentVersion => strLt currentVersion v).filter
        (fun v =>
          match targetVersion with
          | none => true
          | some tv => strLe v tv) := by
    unfold installSchedule
    cases env.currentVersion <;> cases targetVersion <;>
      simp [reducePush_eq_filter, reduceRightUnshift_eq_filter]
  have hmap : (MigrationManager.install env s targetVersion).txs.map Prod.fst =
      installSchedule s env.currentVersion targetVersion := by
    unfold MigrationManager.install
    rw [List.map_map]
    exact (List.map_congr_left fun a _ => rfl).trans (List.map_id _)
  refine ⟨hmap.trans hsched, ?_⟩
  rw [hmap, hsched]
  exact ((sortAsc_sorted s.versionNames).filter _).filter _

/-- Claim C5 counterexample: the fatal severity does not append the message
prefixed by the bracketed level name followed by a space; the source pushes
"[FATAL]" directly followed by the message. -/
theorem migration_logger_fatal_counterexample :
    (MigrationLogger.init.fatal "x").lines = ["[FATAL]x"] ∧
      (MigrationLogger.init.fatal "x").lines ≠ ["[FATAL] x"] := by
  constructor
  · rfl
  · decide

/-- Claim C5 (amended): every severity call forwards the message verbatim to
the wrapped logger and appends a prefixed copy to the captured buffer, with
prefixes "[TRACE] ", "[DEBUG] ", "[INFO] ", "[WARN] ", "[ERROR] " and, without
a trailing space, "[FATAL]"; flush returns the buffered lines joined by the
platform EOL and empties the buffer, so an immediate second flush returns the
empty string. -/
theorem migration_logger_spec :
    (∀ (l : MigrationLogger) (m : String),
      (l.trace m).forwarded = l.forwarded ++ [(LogLevel.trace, m)] ∧
        (l.trace m).lines = l.lines ++ ["[TRACE] " ++ m]) ∧
    (∀ (l : MigrationLogger) (m : String),
      (l.debug m).forwarded = l.forwarded ++ [(LogLevel.debug, m)] ∧
        (l.debug m).lines = l.lines ++ ["[DEBUG] " ++ m]) ∧
    (∀ (l : MigrationLogger) (m : String),
      (l.info m).forwarded = l.forwarded ++ [(LogLevel.info, m)] ∧
        (l.info m).lines = l.lines ++ ["[INFO] " ++ m]) ∧
    (∀ (l : MigrationLogger) (m : String),
      (l.warn m).forwarded = l.forwarded ++ [(LogLevel.warn, m)] ∧
        (l.warn m).lines = l.lines ++ ["[WARN] " ++ m]) ∧
    (∀ (l : MigrationLogger) (m : String),
      (l.error m).forwarded = l.forwarded ++ [(LogLevel.error, m)] ∧
        (l.error m).lines = l.lines ++ ["[ERROR] " ++ m]) ∧
    (∀ (l : MigrationLogger) (m : String),
      (l.fatal m).forwarded = l.forwarded ++ [(LogLevel.fatal, m)] ∧
        (l.fatal m).lines = l.lines ++ ["[FATAL]" ++ m]) ∧
    (∀ l : MigrationLogger,
      (l.flush).1 = joinEOL l.lines ∧ (l.flush).2.lines = [] ∧ ((l.flush).2.flush).1 = "") := by
  refine ⟨?_, ?_, ?_, ?_, ?_, ?_, ?_⟩ <;> intros <;>
    simp [MigrationLogger.trace, MigrationLogger.debug, MigrationLogger.info,
      MigrationLogger.warn, MigrationLogger.error, MigrationLogger.fatal,
      MigrationLogger.flush, joinEOL]

/-- Environment in which the version table already exists, used to exhibit that
install never invokes the structure verification hook. -/
def envTableExists : DialectEnv :=
  { currentVersion := none, versionTableExists := true, versionLogExists := fun _ => true }

/-- Claim C8 counterexample: on an install where isVersionTableExist returns
true, the engine does not invoke verifyVersionTableStructure anywhere, contrary
to the claimed equivalence. -/
theorem verify_table_counterexample :
    envTableExists.versionTableExists = true ∧
    DbAction.verifyVersionTableStructure ∉
      (MigrationManager.install envTableExists sampleSources none).setup ∧
    ∀ tx ∈ (MigrationManager.install envTableExists sampleSources none).txs,
      DbAction.verifyVersionTableStructure ∉ tx.2 := by
  decide

theorem verify_notin_runInstallScript (version : String) (st : MigrationLogger × List DbAction)
    (script : Script) (h : DbAction.verifyVersionTableStructure ∉ st.2) :
    DbAction.verifyVersionTableStructure ∉ (runInstallScript version st script).2 := by
  cases hk : script.kind <;>
    simp [runInstallScript, hk, executeMigrationSqlEvents, List.mem_append, h]

theorem verify_notin_runInstallScripts (bundle : VersionBundle) (version : String) :
    ∀ (ns : List String) (st : MigrationLogger × List DbAction),
      DbAction.verifyVersionTableStructure ∉ st.2 →
      DbAction.verifyVersionTableStructure ∉ (runInstallScripts bundle version st ns).2 := by
  intro ns
  induction ns with
  | nil => intro st h; simpa [runInstallScripts] using h
  | cons n rest ih =>
    intro st h
    rw [runInstallScripts]
    cases hl : bundle.getInstallScript n
    · simpa [hl] using ih st h
    · simpa [hl] using ih _ (verify_notin_runInstallScript version st _ h)

theorem verify_notin_installVersionTx (s : MigrationSources) (v : String) :
    DbAction.verifyVersionTableStructure ∉ (installVersionTx s v).2 := by
  unfold installVersionTx
  cases hb : s.getVersionBundle v
  · simp
  · simp only [List.mem_append]
    rintro (h | h)
    · exact verify_notin_runInstallScripts _ v _ _ (by simp) h
    · simp at h

/-- Claim C8 (amended): on every install invocation, before any version
transaction, a short-lived non-transactional connection queries
isVersionTableExist, and createVersionTable is called if and only if the table
does not exist; verifyVersionTableStructure is never invoked by install,
whatever isVersionTableExist returns. -/
theorem version_table_setup_spec (env : DialectEnv) (s : MigrationSources)
    (targetVersion : Option String) :
    DbAction.isVersionTableExistQ env.versionTableExists ∈
      (MigrationManager.install env s targetVersion).setup ∧
    (DbAction.createVersionTable ∈ (MigrationManager.install env s targetVersion).setup ↔
      env.versionTableExists = false) ∧
    DbAction.verifyVersionTableStructure ∉
      (MigrationManager.install env s targetVersion).setup ∧
    ∀ tx ∈ (MigrationManager.install env s targetVersion).txs,
      DbAction.verifyVersionTableStructure ∉ tx.2 := by
  refine ⟨?_, ?_, ?_, ?_⟩
  · cases h : env.versionTableExists <;> simp [MigrationManager.install, h]
  · cases h : env.versionTableExists <;> simp [MigrationManager.install, h]
  · cases h : env.versionTableExists <;> simp [MigrationManager.install, h]
  · intro tx htx
    simp only [MigrationManager.install, List.mem_map] at htx
    obtain ⟨v, _, rfl⟩ := htx
    exact verify_notin_installVersionTx s v

/-- Claim C9: MigrationSources.load dispatches on the URI scheme: file
delegates to loadFromFilesystem, the two tar+gz schemes fail with the
not-implemented InvalidOperationError, any other scheme fails with
NotSupportedUrlSchemaError, and the two failure kinds are distinguishable. -/
theorem load_dispatch_spec (uriText sourceDirectory : String) (t : Option FsTree) :
    MigrationSources.load "file:" uriText sourceDirectory t =
      loadFromFilesystem sourceDirectory t ∧
    MigrationSources.load "http+tar+gz:" uriText sourceDirectory t =
      Except.error (LoadError.invalidOperationError "Not implemented yet") ∧
    MigrationSources.load "https+tar+gz:" uriText sourceDirectory t =
      Except.error (LoadError.invalidOperationError "Not implemented yet") ∧
    (∀ protocol : String, protocol ≠ "file:" → protocol ≠ "http+tar+gz:" →
      protocol ≠ "https+tar+gz:" →
      MigrationSources.load protocol uriText sourceDirectory t =
        Except.error (LoadError.notSupportedUrlSchemaError
          ("Not supported schema: " ++ uriText))) ∧
    ∀ m1 m2 : String,
      LoadError.invalidOperationError m1 ≠ LoadError.notSupportedUrlSchemaError m2 := by
  refine ⟨rfl, ?_, ?_, ?_, ?_⟩
  · rw [MigrationSources.load, if_neg (by decide), if_pos rfl]
  · rw [MigrationSources.load, if_neg (by decide), if_neg (by decide), if_pos rfl]
  · intro protocol h1 h2 h3
    rw [MigrationSources.load, if_neg h1, if_neg h2, if_neg h3]
  · intro m1 m2 h
    exact LoadError.noConfusion h

/-- Claim C6: during rollback, a scheduled version whose version log row is
absent yields only the isVersionLogExist query and the exact warning on the
injected logger; none of its rollback scripts is executed, removeVersionLog is
not called for it, and every scheduled version still gets its own transaction,
so the run continues without error. -/
theorem rollback_skip_missing_log (env : DialectEnv) (s : MigrationSources)
    (targetVersion : Option String) (v : String)
    (hlog : env.versionLogExists v = false) :
    rollbackVersionTx env s v =
      ([(LogLevel.warn, "Skip rollback for version \x27" ++ v
          ++ "\x27 due this does not present inside database.")],
        [DbAction.isVersionLogExistQ v false]) ∧
    (∀ sql, DbAction.stmtExecute sql ∉ (rollbackVersionTx env s v).2) ∧
    (∀ f c, DbAction.execJavaScript f c ∉ (rollbackVersionTx env s v).2) ∧
    DbAction.removeVersionLogA v ∉ (rollbackVersionTx env s v).2 ∧
    (MigrationManager.rollback env s targetVersion).txs.map Prod.fst =
      rollbackSchedule s env.currentVersion targetVersion := by
  have h1 : rollbackVersionTx env s v =
      ([(LogLevel.warn, "Skip rollback for version \x27" ++ v
          ++ "\x27 due this does not present inside database.")],
        [DbAction.isVersionLogExistQ v false]) := by
    simp [rollbackVersionTx, hlog]
  refine ⟨h1, ?_, ?_, ?_, ?_⟩
  · intro sql; simp [h1]
  · intro f c; simp [h1]
  · simp [h1]
  · unfold MigrationManager.rollback
    rw [List.map_map]
    exact (List.map_congr_left fun a _ => rfl).trans (List.map_id _)

theorem mapScriptsWithLog_fst (dir : Direction) (scripts : List (String × Script))
    (f : Script → Direction → String) :
    ∀ ns : List String, (mapScriptsWithLog dir scripts f ns).1 =
      ns.filterMap fun n => (alookup n scripts).map fun item =>
        { item with content := f item dir } := by
  intro ns
  induction ns with
  | nil => rfl
  | cons n rest ih =>
    cases hl : alookup n scripts <;>
      simp [mapScriptsWithLog, hl, List.filterMap_cons, ih]

theorem mapScriptsWithLog_snd (dir : Direction) (scripts : List (String × Script))
    (f : Script → Direction → String) :
    ∀ ns : List String, (mapScriptsWithLog dir scripts f ns).2 =
      ns.filterMap fun n => (alookup n scripts).map fun item => (dir, item.name) := by
  intro ns
  induction ns with
  | nil => rfl
  | cons n rest ih =>
    cases hl : alookup n scripts <;>
      simp [mapScriptsWithLog, hl, List.filterMap_cons, ih]

theorem scriptMapWf_lookup {scripts : List (String × Script)} (h : ScriptMapWf scripts)
    {n : String} (hn : n ∈ scripts.map Prod.fst) :
    ∃ it, alookup n scripts = some it ∧ it.name = n := by
  obtain ⟨p, hp, rfl⟩ := List.mem_map.mp hn
  exact ⟨p.2, alookup_of_mem h.1 (by simpa using hp), h.2 p hp⟩

theorem mapped_side_names {scripts : List (String × Script)} (hwf : ScriptMapWf scripts)
    (f : Script → Direction → String) (dir : Direction) :
    ∀ ns : List String, (∀ n ∈ ns, n ∈ scripts.map Prod.fst) →
      ((ns.filterMap fun n => (alookup n scripts).map fun item =>
          { item with content := f item dir }).map Script.name) = ns := by
  intro ns
  induction ns with
  | nil => intro _; rfl
  | cons n rest ih =>
    intro hn
    obtain ⟨it, hit, hname⟩ := scriptMapWf_lookup hwf (hn n (by simp))
    simp [List.filterMap_cons, hit, hname,
      ih fun x hx => hn x (List.mem_cons_of_mem _ hx)]

theorem mapped_side_log {scripts : List (String × Script)} (hwf : ScriptMapWf scripts)
    (dir : Direction) :
    ∀ ns : List String, (∀ n ∈ ns, n ∈ scripts.map Prod.fst) →
      (ns.filterMap fun n => (alookup n scripts).map fun item => (dir, item.name)) =
        ns.map fun n => (dir, n) := by
  intro ns hns
  apply filterMap_eq_map_of_forall_some
  intro n hn
  obtain ⟨it, hit, hname⟩ := scriptMapWf_lookup hwf (hns n hn)
  simp [hit, hname]

/-- Keys and membership facts of one side of a mapped bundle.  The entry list of
the new Map is keyed by the mapped script names, which are the original sorted
names, and every original script is found mapped under its own name. -/
theorem mapped_side_entries {scripts : List (String × Script)} (hwf : ScriptMapWf scripts)
    (f : Script → Direction → String) (dir : Direction) :
    (mapOfEntries
        (((sortAsc (scripts.map Prod.fst)).filterMap fun n =>
          (alookup n scripts).map fun item => { item with content := f item dir }).map
          fun s => (s.name, s)) =
      ((sortAsc (scripts.map Prod.fst)).filterMap fun n =>
          (alookup n scripts).map fun item => { item with content := f item dir }).map
        fun s => (s.name, s)) ∧
    ((((sortAsc (scripts.map Prod.fst)).filterMap fun n =>
          (alookup n scripts).map fun item => { item with content := f item dir }).map
        fun s => (s.name, s)).map Prod.fst = sortAsc (scripts.map Prod.fst)) ∧
    ∀ n it, alookup n scripts = some it →
      alookup n
        ((((sortAsc (scripts.map Prod.fst)).filterMap fun n =>
            (alookup n scripts).map fun item => { item with content := f item dir }).map
          fun s => (s.name, s))) = some { it with content := f it dir } := by
  have hmem : ∀ n ∈ sortAsc (scripts.map Prod.fst), n ∈ scripts.map Prod.fst :=
    fun n hn => mem_sortAsc.mp hn
  have hnames := mapped_side_names hwf f dir (sortAsc (scripts.map Prod.fst)) hmem
  have hkeys : ((((sortAsc (scripts.map Prod.fst)).filterMap fun n =>
        (alookup n scripts).map fun item => { item with content := f item dir }).map
      fun s => (s.name, s)).map Prod.fst) = sortAsc (scripts.map Prod.fst) := by
    rw [List.map_map]
    exact hnames
  have hnd : ((((sortAsc (scripts.map Prod.fst)).filterMap fun n =>
        (alookup n scripts).map fun item => { item with content := f item dir }).map
      fun s => (s.name, s)).map Prod.fst).Nodup := by
    rw [hkeys]
    exact sortAsc_nodup hwf.1
  refine ⟨mapOfEntries_eq_self hnd, hkeys, ?_⟩
  intro n it hit
  have hin : n ∈ scripts.map Prod.fst := by
    have := alookup_mem hit
    exact List.mem_map.mpr ⟨(n, it), this, rfl⟩
  have hname : it.name = n := (scriptMapWf_lookup hwf hin).elim
    (fun it2 h2 => by rw [hit] at h2; cases h2.1; exact h2.2)
  apply alookup_of_mem hnd
  apply List.mem_map.mpr
  refine ⟨{ it with content := f it dir }, ?_, by simp [hname]⟩
  apply List.mem_filterMap.mpr
  exact ⟨n, mem_sortAsc.mpr hin, by simp [hit]⟩

/-- Behaviour of VersionBundle.map on a well-formed bundle: the version name
and both sorted name lists are preserved, every script keeps its place with
only the content replaced, and the callback invocation log lists exactly the
sorted install names then the sorted rollback names. -/
theorem bundle_map_spec {b : VersionBundle} (hwf : b.Wf) (f : Script → Direction → String) :
    ((b.mapWithLog f).1).versionName = b.versionName ∧
    ((b.mapWithLog f).1).installScriptNames = b.installScriptNames ∧
    ((b.mapWithLog f).1).rollbackScriptNames = b.rollbackScriptNames ∧
    (∀ n it, b.getInstallScript n = some it →
      ((b.mapWithLog f).1).getInstallScript n =
        some { it with content := f it Direction.install }) ∧
    (∀ n it, b.getRollbackScript n = some it →
      ((b.mapWithLog f).1).getRollbackScript n =
        some { it with content := f it Direction.rollback }) ∧
    (b.mapWithLog f).2 =
      (b.installScriptNames.map fun n => (Direction.install, n)) ++
        (b.rollbackScriptNames.map fun n => (Direction.rollback, n)) := by
  obtain ⟨hwfi, hwfr⟩ := hwf
  have hi := mapped_side_entries hwfi f Direction.install
  have hr := mapped_side_entries hwfr f Direction.rollback
  have hinst : ((b.mapWithLog f).1).installScripts =
      (((sortAsc (b.installScripts.map Prod.fst)).filterMap fun n =>
        (alookup n b.installScripts).map fun item =>
          { item with content := f item Direction.install }).map fun s => (s.name, s)) := by
    simp only [VersionBundle.mapWithLog, VersionBundle.make,
      mapScriptsWithLog_fst, VersionBundle.installScriptNames]
    exact hi.1
  have hrol : ((b.mapWithLog f).1).rollbackScripts =
      (((sortAsc (b.rollbackScripts.map Prod.fst)).filterMap fun n =>
        (alookup n b.rollbackScripts).map fun item =>
          { item with content := f item Direction.rollback }).map fun s => (s.name, s)) := by
    simp only [VersionBundle.mapWithLog, VersionBundle.make,
      mapScriptsWithLog_snd, mapScriptsWithLog_fst, VersionBundle.rollbackScriptNames]
    exact hr.1
  refine ⟨rfl, ?_, ?_, ?_, ?_, ?_⟩
  · rw [VersionBundle.installScriptNames, hinst, hi.2.1]
    exact sortAsc_idem _
  · rw [VersionBundle.rollbackScriptNames, hrol, hr.2.1]
    exact sortAsc_idem _
  · intro n it hit
    rw [VersionBundle.getInstallScript, hinst]
    exact hi.2.2 n it hit
  · intro n it hit
    rw [VersionBundle.getRollbackScript, hrol]
    exact hr.2.2 n it hit
  · simp only [VersionBundle.mapWithLog, mapScriptsWithLog_snd,
      VersionBundle.installScriptNames, VersionBundle.rollbackScriptNames]
    rw [mapped_side_log hwfi Direction.install _ (fun n hn => mem_sortAsc.mp hn),
      mapped_side_log hwfr Direction.rollback _ (fun n hn => mem_sortAsc.mp hn)]

/-- Well-formedness of an on-disk tree, guaranteed by any real filesystem:
sibling names are distinct at every level. -/
def FsTree.Wf (t : FsTree) : Prop :=
  (t.versions.map FsVersionDir.name).Nodup ∧
    ∀ d ∈ t.versions, ((d.install.getD []).map FsFile.name).Nodup ∧
      ((d.rollback.getD []).map FsFile.name).Nodup

/-- A tree in which every version directory has both direction directories. -/
def FsTree.Complete (t : FsTree) : Prop :=
  ∀ d ∈ t.versions, d.install.isSome = true ∧ d.rollback.isSome = true

/-- File-list equivalence: the same sub-directory presence and the same set of
files (names with byte-identical contents). -/
def FilesMatch : Option (List FsFile) → Option (List FsFile) → Prop
  | some a, some b => List.Perm a b
  | none, none => True
  | _, _ => False

/-- Version-directory equivalence: same name, same sub-directories, same files. -/
def DirMatch (a b : FsVersionDir) : Prop :=
  a.name = b.name ∧ FilesMatch a.install b.install ∧ FilesMatch a.rollback b.rollback

/-- Equivalence of directory lookups. -/
def OptDirMatch : Option FsVersionDir → Option FsVersionDir → Prop
  | some a, some b => DirMatch a b
  | none, none => True
  | _, _ => False

/-- A valid source tree whose only version directory has no install
sub-directory; loadFromFilesystem accepts it, with an empty install set. -/
def lopsidedTree : FsTree :=
  { versions :=
      [{ name := "v0001"
         install := none
         rollback := some [{ name := "01-drop.sql", content := "DROP TABLE t1;" }] }] }

/-- Claim C3 counterexample: loading the lopsided tree and saving it into an
empty destination does not reproduce the tree: saveToFilesystem always creates
the install sub-directory, so the directory sets differ. -/
theorem roundtrip_counterexample :
    FsTree.Wf lopsidedTree ∧
    saveTree (loadTree "/migration" lopsidedTree) ≠ lopsidedTree ∧
    ((saveTree (loadTree "/migration" lopsidedTree)).versions.map fun d =>
        (d.name, d.install.isSome)) ≠
      (lopsidedTree.versions.map fun d => (d.name, d.install.isSome)) := by
  refine ⟨?_, by decide, by decide⟩
  unfold FsTree.Wf
  decide

theorem loadScripts_keys (dir : String) (fs : List FsFile) :
    ((loadScripts dir fs).map fun s => (s.name, s)).map Prod.fst = fs.map FsFile.name := by
  simp only [loadScripts, List.map_map]
  exact List.map_congr_left fun a _ => rfl

/-- Round trip of one direction directory: the files written back from a loaded
script map are a permutation of the files read. -/
theorem side_saved_perm (dir : String) (fs : List FsFile)
    (h : (fs.map FsFile.name).Nodup) :
    List.Perm
      ((sortAsc (fs.map FsFile.name)).filterMap fun n =>
        (alookup n ((loadScripts dir fs).map fun s => (s.name, s))).map
          fun sc => FsFile.mk n sc.content)
      fs := by
  have hknd : (((loadScripts dir fs).map fun s => (s.name, s)).map Prod.fst).Nodup := by
    rw [loadScripts_keys]; exact h
  have hpoint : ∀ fl ∈ fs,
      (alookup fl.name ((loadScripts dir fs).map fun s => (s.name, s))).map
        (fun sc => FsFile.mk fl.name sc.content) = some fl := by
    intro fl hfl
    have hmem : (fl.name, Script.mk fl.name
        (resolveScriptKindByExtension (dir ++ "/" ++ fl.name))
        (dir ++ "/" ++ fl.name) fl.content) ∈
        ((loadScripts dir fs).map fun s => (s.name, s)) := by
      apply List.mem_map.mpr
      refine ⟨_, List.mem_map.mpr ⟨fl, hfl, rfl⟩, rfl⟩
    rw [alookup_of_mem hknd hmem]
    rfl
  have hstep : List.Perm
      ((sortAsc (fs.map FsFile.name)).filterMap fun n =>
        (alookup n ((loadScripts dir fs).map fun s => (s.name, s))).map
          fun sc => FsFile.mk n sc.content)
      ((fs.map FsFile.name).filterMap fun n =>
        (alookup n ((loadScripts dir fs).map fun s => (s.name, s))).map
          fun sc => FsFile.mk n sc.content) :=
    List.Perm.filterMap _ (sortAsc_perm (fs.map FsFile.name))
  refine hstep.trans ?_
  rw [List.filterMap_map]
  have hall : fs.filterMap ((fun n =>
      (alookup n ((loadScripts dir fs).map fun s => (s.name, s))).map
        fun sc => FsFile.mk n sc.content) ∘ FsFile.name) = fs.map id :=
    filterMap_eq_map_of_forall_some fun fl hfl => hpoint fl hfl
  rw [hall, List.map_id]

theorem saveVersion_name (s : MigrationSources) (v : String) : (saveVersion s v).name = v := by
  unfold saveVersion
  cases s.getVersionBundle v <;> rfl

theorem loadTree_versions (root : String) (t : FsTree)
    (h : (t.versions.map FsVersionDir.name).Nodup) :
    (loadTree root t).versions = t.versions.map fun d => (d.name, loadVersionDir root d) := by
  show mapOfEntries ((t.versions.map (loadVersionDir root)).map fun b => (b.versionName, b)) = _
  have hkeys : (((t.versions.map (loadVersionDir root)).map
      fun b => (b.versionName, b)).map Prod.fst) = t.versions.map FsVersionDir.name := by
    simp only [List.map_map]
    exact List.map_congr_left fun a _ => rfl
  rw [mapOfEntries_eq_self (by rw [hkeys]; exact h)]
  simp only [List.map_map]
  exact List.map_congr_left fun a _ => rfl

theorem loadTree_lookup (root : String) (t : FsTree)
    (h : (t.versions.map FsVersionDir.name).Nodup) (v : String) :
    (loadTree root t).getVersionBundle v = (t.findDir v).map (loadVersionDir root) := by
  rw [MigrationSources.getVersionBundle, loadTree_versions root t h, FsTree.findDir]
  exact alookup_map_value v FsVersionDir.name (loadVersionDir root)

theorem loadTree_versionNames (root : String) (t : FsTree)
    (h : (t.versions.map FsVersionDir.name).Nodup) :
    (loadTree root t).versionNames = sortAsc (t.versions.map FsVersionDir.name) := by
  rw [MigrationSources.versionNames, loadTree_versions root t h, List.map_map]
  congr 1

theorem saveTree_findDir (s : MigrationSources) (v : String) :
    (saveTree s).findDir v =
      if v ∈ s.versionNames then some (saveVersion s v) else none := by
  have h1 : (saveTree s).versions.map (fun d => (d.name, d)) =
      s.versionNames.map fun v2 => (v2, saveVersion s v2) := by
    rw [saveTree]
    rw [List.map_map]
    exact List.map_congr_left fun a _ => by simp [saveVersion_name]
  rw [FsTree.findDir, h1, alookup_key_map]

theorem findDir_keys (t : FsTree) :
    (t.versions.map fun d => (d.name, d)).map Prod.fst = t.versions.map FsVersionDir.name := by
  rw [List.map_map]
  exact List.map_congr_left fun a _ => rfl

theorem findDir_none {t : FsTree} {v : String}
    (h : v ∉ t.versions.map FsVersionDir.name) : t.findDir v = none := by
  rw [FsTree.findDir]
  exact alookup_eq_none.mpr (by rw [findDir_keys]; exact h)

/-- Claim C3 (amended): for a valid source tree in canonical shape, where every
version directory has both an install and a rollback sub-directory, loading and
then saving into an empty destination reproduces the tree as a set: the same
version directories, the same sub-directories, the same file names with
byte-identical contents.  In general the saved tree differs from the source
exactly by creating any absent direction directory as empty. -/
theorem roundtrip_spec (root : String) (t : FsTree) (hwf : t.Wf) (hc : t.Complete) :
    List.Perm ((saveTree (loadTree root t)).versions.map FsVersionDir.name)
      (t.versions.map FsVersionDir.name) ∧
    ∀ v, OptDirMatch ((saveTree (loadTree root t)).findDir v) (t.findDir v) := by
  have hnames : (saveTree (loadTree root t)).versions.map FsVersionDir.name =
      (loadTree root t).versionNames := by
    rw [saveTree, List.map_map]
    exact (List.map_congr_left fun a _ =>
      saveVersion_name (loadTree root t) a).trans (List.map_id _)
  have hvn := loadTree_versionNames root t hwf.1
  constructor
  · rw [hnames, hvn]
    exact sortAsc_perm _
  · intro v
    rw [saveTree_findDir]
    by_cases hv : v ∈ (loadTree root t).versionNames
    · rw [if_pos hv]
      have hvt : v ∈ t.versions.map FsVersionDir.name := by
        rw [hvn] at hv
        exact mem_sortAsc.mp hv
      obtain ⟨d, hd, hdn⟩ := List.mem_map.mp hvt
      have hfd : t.findDir v = some d := by
        rw [FsTree.findDir]
        apply alookup_of_mem
        · rw [findDir_keys]; exact hwf.1
        · exact List.mem_map.mpr ⟨d, hd, by rw [hdn]⟩
      rw [hfd]
      have hlk : (loadTree root t).getVersionBundle v = some (loadVersionDir root d) := by
        rw [loadTree_lookup root t hwf.1, hfd]
        rfl
      obtain ⟨fsi, hfsi⟩ := Option.isSome_iff_exists.mp (hc d hd).1
      obtain ⟨fsr, hfsr⟩ := Option.isSome_iff_exists.mp (hc d hd).2
      have hwfi : (fsi.map FsFile.name).Nodup := by
        have h2 := (hwf.2 d hd).1
        rw [hfsi] at h2
        simpa using h2
      have hwfr : (fsr.map FsFile.name).Nodup := by
        have h2 := (hwf.2 d hd).2
        rw [hfsr] at h2
        simpa using h2
      show DirMatch (saveVersion (loadTree root t) v) d
      rw [saveVersion, hlk]
      refine ⟨hdn.symm, ?_, ?_⟩
      · simp only [loadVersionDir, hfsi, hfsr, VersionBundle.make,
          VersionBundle.installScriptNames, VersionBundle.getInstallScript]
        show List.Perm _ fsi
        rw [mapOfEntries_eq_self (by rw [loadScripts_keys]; exact hwfi), loadScripts_keys]
        exact side_saved_perm _ fsi hwfi
      · simp only [loadVersionDir, hfsi, hfsr, VersionBundle.make,
          VersionBundle.rollbackScriptNames, VersionBundle.getRollbackScript]
        show List.Perm _ fsr
        rw [mapOfEntries_eq_self (by rw [loadScripts_keys]; exact hwfr), loadScripts_keys]
        exact side_saved_perm _ fsr hwfr
    · rw [if_neg hv]
      have hvt : v ∉ t.versions.map FsVersionDir.name := by
        intro hmem
        exact hv (by rw [hvn]; exact mem_sortAsc.mpr hmem)
      rw [findDir_none hvt]
      exact trivial

theorem mapWithLog_versionName (b : VersionBundle) (f : Script → Direction → String) :
    ((b.mapWithLog f).1).versionName = b.versionName := rfl

theorem mapGo_fst (s : MigrationSources) (f : String → MapInfo → String) :
    ∀ vs : List String, (MigrationSources.mapGo s f vs).1 =
      vs.filterMap fun v => (s.getVersionBundle v).map fun b =>
        (b.mapWithLog fun item dir => f item.content (MapInfo.mk v dir item.name)).1 := by
  intro vs
  induction vs with
  | nil => rfl
  | cons v rest ih =>
    cases hb : s.getVersionBundle v <;>
      simp [MigrationSources.mapGo, hb, List.filterMap_cons, ih]

theorem mapGo_snd (s : MigrationSources) (f : String → MapInfo → String) :
    ∀ vs : List String, (MigrationSources.mapGo s f vs).2 =
      listFlatMap (fun v =>
        match s.getVersionBundle v with
        | some b => ((b.mapWithLog fun item dir =>
            f item.content (MapInfo.mk v dir item.name)).2).map fun p => MapInfo.mk v p.1 p.2
        | none => []) vs := by
  intro vs
  induction vs with
  | nil => rfl
  | cons v rest ih =>
    cases hb : s.getVersionBundle v <;>
      simp [MigrationSources.mapGo, hb, listFlatMap, ih]

theorem sources_lookup_wf {s : MigrationSources} (hwf : s.Wf) {v : String}
    {b : VersionBundle} (hb : s.getVersionBundle v = some b) :
    b.versionName = v ∧ b.Wf :=
  hwf.2 (v, b) (alookup_mem hb)

theorem sourcesWf_lookup {s : MigrationSources} (hwf : s.Wf) {v : String}
    (hv : v ∈ s.versionNames) :
    ∃ b, s.getVersionBundle v = some b ∧ b.versionName = v ∧ b.Wf := by
  have hv2 : v ∈ s.versions.map Prod.fst := mem_sortAsc.mp hv
  obtain ⟨p, hp, rfl⟩ := List.mem_map.mp hv2
  exact ⟨p.2, alookup_of_mem hwf.1 (by simpa using hp), (hwf.2 p hp).1, (hwf.2 p hp).2⟩

theorem mapped_bundles_names (s : MigrationSources) (f : String → MapInfo → String) :
    ∀ vs : List String,
      (∀ v ∈ vs, ∃ b, s.getVersionBundle v = some b ∧ b.versionName = v) →
      ((vs.filterMap fun v => (s.getVersionBundle v).map fun b =>
          (b.mapWithLog fun item dir =>
            f item.content (MapInfo.mk v dir item.name)).1).map
        VersionBundle.versionName) = vs := by
  intro vs
  induction vs with
  | nil => intro _; rfl
  | cons v rest ih =>
    intro hv
    obtain ⟨b, hb, hname⟩ := hv v (by simp)
    simp [List.filterMap_cons, hb, mapWithLog_versionName, hname,
      ih fun x hx => hv x (List.mem_cons_of_mem _ hx)]

/-- The version enumeration of the mapper call log: every tuple recorded for
version v carries v as its version name. -/
theorem mem_enum_version {s : MigrationSources} {v : String} {a : MapInfo}
    (h : a ∈ (match s.getVersionBundle v with
      | some b => (b.installScriptNames.map fun n => MapInfo.mk v Direction.install n) ++
          (b.rollbackScriptNames.map fun n => MapInfo.mk v Direction.rollback n)
      | none => ([] : List MapInfo))) : a.versionName = v := by
  cases hb : s.getVersionBundle v
  · rw [hb] at h
    simp at h
  · rw [hb] at h
    rcases List.mem_append.mp h with h2 | h2 <;>
      obtain ⟨n, _, rfl⟩ := List.mem_map.mp h2 <;> rfl

theorem mapEnum_nodup (s : MigrationSources) :
    ∀ vs : List String, vs.Nodup →
      (∀ v ∈ vs, ∀ b, s.getVersionBundle v = some b → b.Wf) →
      (listFlatMap (fun v =>
        match s.getVersionBundle v with
        | some b => (b.installScriptNames.map fun n => MapInfo.mk v Direction.install n) ++
            (b.rollbackScriptNames.map fun n => MapInfo.mk v Direction.rollback n)
        | none => ([] : List MapInfo)) vs).Nodup := by
  intro vs
  induction vs with
  | nil => intro _ _; simp [listFlatMap]
  | cons v rest ih =>
    intro hnd hwfv
    rw [List.nodup_cons] at hnd
    rw [listFlatMap]
    apply List.Nodup.append
    · cases hb : s.getVersionBundle v
      · simp
      · rename_i b
        have hbwf : b.Wf := hwfv v (by simp) b hb
        have hinj1 : Function.Injective fun n => MapInfo.mk v Direction.install n :=
          fun a c h => congrArg MapInfo.itemName h
        have hinj2 : Function.Injective fun n => MapInfo.mk v Direction.rollback n :=
          fun a c h => congrArg MapInfo.itemName h
        apply List.Nodup.append
        · exact List.Nodup.map hinj1 (sortAsc_nodup hbwf.1.1)
        · exact List.Nodup.map hinj2 (sortAsc_nodup hbwf.2.1)
        · intro a ha1 ha2
          obtain ⟨n, _, rfl⟩ := List.mem_map.mp ha1
          obtain ⟨m, _, he⟩ := List.mem_map.mp ha2
          exact Direction.noConfusion (congrArg MapInfo.direction he)
    · exact ih hnd.2 fun x hx => hwfv x (List.mem_cons_of_mem _ hx)
    · intro a ha1 ha2
      have hv1 : a.versionName = v := mem_enum_version (s := s) ha1
      obtain ⟨v2, hv2, hmem2⟩ := mem_listFlatMap.mp ha2
      have hv2e : a.versionName = v2 := mem_enum_version (s := s) hmem2
      exact hnd.1 (by rw [← hv1.symm.trans hv2e] at hv2; exact hv2)

/-- Claim C4: mapping a well-formed sources value preserves the version names,
every bundle script-name list and every script name, kind and file; only the
content changes, to the callback applied to the old content and the
(version, direction, item) info; and the callback is invoked exactly once per
script, as listed by the duplicate-free call log. -/
theorem sources_map_spec (s : MigrationSources) (f : String → MapInfo → String)
    (hwf : s.Wf) :
    (s.map f).versionNames = s.versionNames ∧
    (∀ v b, s.getVersionBundle v = some b →
      ∃ b2, (s.map f).getVersionBundle v = some b2 ∧
        b2.installScriptNames = b.installScriptNames ∧
        b2.rollbackScriptNames = b.rollbackScriptNames ∧
        (∀ n it, b.getInstallScript n = some it →
          b2.getInstallScript n =
            some { it with content := f it.content (MapInfo.mk v Direction.install n) }) ∧
        (∀ n it, b.getRollbackScript n = some it →
          b2.getRollbackScript n =
            some { it with content := f it.content (MapInfo.mk v Direction.rollback n) })) ∧
    s.mapCallLog f = listFlatMap (fun v =>
      match s.getVersionBundle v with
      | some b => (b.installScriptNames.map fun n => MapInfo.mk v Direction.install n) ++
          (b.rollbackScriptNames.map fun n => MapInfo.mk v Direction.rollback n)
      | none => ([] : List MapInfo)) s.versionNames ∧
    (s.mapCallLog f).Nodup := by
  have hvnd : s.versionNames.Nodup := sortAsc_nodup hwf.1
  have htot : ∀ v ∈ s.versionNames, ∃ b, s.getVersionBundle v = some b ∧ b.versionName = v :=
    fun v hv => (sourcesWf_lookup hwf hv).elim fun b hb => ⟨b, hb.1, hb.2.1⟩
  have hnames := mapped_bundles_names s f s.versionNames htot
  have hkeys : (((s.versionNames.filterMap fun v => (s.getVersionBundle v).map fun b =>
        (b.mapWithLog fun item dir =>
          f item.content (MapInfo.mk v dir item.name)).1).map
      fun b => (b.versionName, b)).map Prod.fst) = s.versionNames := by
    rw [List.map_map]
    exact (List.map_congr_left fun a _ => rfl).trans hnames
  have hknd : (((s.versionNames.filterMap fun v => (s.getVersionBundle v).map fun b =>
        (b.mapWithLog fun item dir =>
          f item.content (MapInfo.mk v dir item.name)).1).map
      fun b => (b.versionName, b)).map Prod.fst).Nodup := by
    rw [hkeys]; exact hvnd
  have hversions : (s.map f).versions =
      ((s.versionNames.filterMap fun v => (s.getVersionBundle v).map fun b =>
          (b.mapWithLog fun item dir =>
            f item.content (MapInfo.mk v dir item.name)).1).map
        fun b => (b.versionName, b)) := by
    show (MigrationSources.make (MigrationSources.mapGo s f s.versionNames).1).versions = _
    rw [MigrationSources.make, mapGo_fst]
    exact mapOfEntries_eq_self hknd
  refine ⟨?_, ?_, ?_, ?_⟩
  · rw [MigrationSources.versionNames, hversions, hkeys]
    exact sortAsc_eq_self (sortAsc_sorted _)
  · intro v b hb
    obtain ⟨hbname, hbwf⟩ := sources_lookup_wf hwf hb
    have hvmem : v ∈ s.versionNames := by
      apply mem_sortAsc.mpr
      exact List.mem_map.mpr ⟨(v, b), alookup_mem hb, rfl⟩
    have hbm := bundle_map_spec hbwf fun item dir => f item.content (MapInfo.mk v dir item.name)
    refine ⟨(b.mapWithLog fun item dir =>
      f item.content (MapInfo.mk v dir item.name)).1, ?_, hbm.2.1, hbm.2.2.1, ?_, ?_⟩
    · rw [MigrationSources.getVersionBundle, hversions]
      apply alookup_of_mem hknd
      apply List.mem_map.mpr
      refine ⟨(b.mapWithLog fun item dir =>
        f item.content (MapInfo.mk v dir item.name)).1, ?_, ?_⟩
      · exact List.mem_filterMap.mpr ⟨v, hvmem, by rw [hb]; rfl⟩
      · rw [mapWithLog_versionName, hbname]
    · intro n it hit
      have hname : it.name = n := ((hbwf.1).2 (n, it) (alookup_mem hit)).trans rfl
      have := hbm.2.2.2.1 n it hit
      rw [this, hname]
    · intro n it hit
      have hname : it.name = n := ((hbwf.2).2 (n, it) (alookup_mem hit)).trans rfl
      have := hbm.2.2.2.2.1 n it hit
      rw [this, hname]
  · show (MigrationSources.mapGo s f s.versionNames).2 = _
    rw [mapGo_snd]
    apply listFlatMap_congr
    intro v hv
    obtain ⟨b, hb, hbname⟩ := htot v hv
    have hbwf : b.Wf := (sources_lookup_wf hwf hb).2
    have hbm := bundle_map_spec hbwf fun item dir => f item.content (MapInfo.mk v dir item.name)
    simp only [hb, hbm.2.2.2.2.2, List.map_append, List.map_map]
    congr 1
  · have henum := mapEnum_nodup s s.versionNames hvnd
      (fun v _ b hb => (sources_lookup_wf hwf hb).2)
    have hlog : s.mapCallLog f = listFlatMap (fun v =>
        match s.getVersionBundle v with
        | some b => (b.installScriptNames.map fun n => MapInfo.mk v Direction.install n) ++
            (b.rollbackScriptNames.map fun n => MapInfo.mk v Direction.rollback n)
        | none => ([] : List MapInfo)) s.versionNames := by
      show (MigrationSources.mapGo s f s.versionNames).2 = _
      rw [mapGo_snd]
      apply listFlatMap_congr
      intro v hv
      obtain ⟨b, hb, hbname⟩ := htot v hv
      have hbwf : b.Wf := (sources_lookup_wf hwf hb).2
      have hbm := bundle_map_spec hbwf fun item dir => f item.content (MapInfo.mk v dir item.name)
      simp only [hb, hbm.2.2.2.2.2, List.map_append, List.map_map]
      congr 1
    rw [hlog]
    exact henum

theorem sortDesc_sorted (l : List String) :
    List.Sorted (fun a b => StrLe b a) (sortDesc l) :=
  List.pairwise_reverse.mpr (sortAsc_sorted l)

/-- Claim C2: for every rollback invocation, the scheduled versions are the
source version names sorted descending, filtered to those at or below the
current version when it is non-null and to those strictly above the target
version when one is given; versions are processed in descending order, each in
its own transaction, and within a version whose log row exists the rollback
scripts run in descending name order between the log query and the log row
removal. -/
theorem rollback_schedule_spec (env : DialectEnv) (s : MigrationSources)
    (targetVersion : Option String) :
    (MigrationManager.rollback env s targetVersion).txs.map Prod.fst =
      ((sortDesc s.versionNames).filter fun v =>
          match env.currentVersion with
          | none => true
          | some currentVersion => strLe v currentVersion).filter
        (fun v =>
          match targetVersion with
          | none => true
          | some tv => strLt tv v) ∧
    List.Sorted (fun a b => StrLe b a)
      ((MigrationManager.rollback env s targetVersion).txs.map Prod.fst) ∧
    ∀ v b, s.getVersionBundle v = some b → env.versionLogExists v = true →
      (rollbackVersionTx env s v).2 =
        [DbAction.isVersionLogExistQ v true] ++
          listFlatMap (fun n => (rollbackNameEvents b v n).2)
            (sortDesc b.rollbackScriptNames) ++
          [DbAction.removeVersionLogA v] ∧
      List.Sorted (fun a b => StrLe b a) (sortDesc b.rollbackScriptNames) := by
  have hsched : rollbackSchedule s env.currentVersion targetVersion =
      ((sortDesc s.versionNames).filter fun v =>
          match env.currentVersion with
          | none => true
          | some currentVersion => strLe v currentVersion).filter
        (fun v =>
          match targetVersion with
          | none => true
          | some tv => strLt tv v) := by
    unfold rollbackSchedule
    cases env.currentVersion <;> cases targetVersion <;>
      simp [reducePush_eq_filter, reduceRightUnshift_eq_filter]
  have hmap : (MigrationManager.rollback env s targetVersion).txs.map Prod.fst =
      rollbackSchedule s env.currentVersion targetVersion := by
    unfold MigrationManager.rollback
    rw [List.map_map]
    exact (List.map_congr_left fun a _ => rfl).trans (List.map_id _)
  refine ⟨hmap.trans hsched, ?_, ?_⟩
  · rw [hmap, hsched]
    exact ((sortDesc_sorted s.versionNames).filter _).filter _
  · intro v b hb hlog
    refine ⟨?_, sortDesc_sorted _⟩
    simp only [rollbackVersionTx, hlog, hb, if_true]
    rw [runRollbackScripts_eq]

/-- Claim C7: the script kind is a case-sensitive extension match, with ".sql"
yielding SQL, ".js" yielding JAVASCRIPT and anything else UNKNOWN; during
install an UNKNOWN script only produces a warn buffer line containing the
substring "unknown kind of script" and submits no provider action. -/
theorem script_kind_dispatch_spec :
    (∀ fileName, resolveScriptKindByExtension fileName = ScriptKind.SQL ↔
      extname fileName = ".sql") ∧
    (∀ fileName, resolveScriptKindByExtension fileName = ScriptKind.JAVASCRIPT ↔
      extname fileName = ".js") ∧
    (∀ fileName, extname fileName ≠ ".sql" → extname fileName ≠ ".js" →
      resolveScriptKindByExtension fileName = ScriptKind.UNKNOWN) ∧
    resolveScriptKindByExtension "99-notes.txt" = ScriptKind.UNKNOWN ∧
    (∀ (version : String) (st : MigrationLogger × List DbAction) (script : Script),
      script.kind = ScriptKind.UNKNOWN →
      (runInstallScript version st script).1.lines =
        st.1.lines ++ ["[WARN] " ++ ("Skip script \x27" ++ version ++ ":" ++ script.name
          ++ "\x27 due unknown kind of script")] ∧
      (runInstallScript version st script).2 = st.2 ∧
      ∃ p q, "Skip script \x27" ++ version ++ ":" ++ script.name
          ++ "\x27 due unknown kind of script" = p ++ "unknown kind of script" ++ q) := by
  refine ⟨?_, ?_, ?_, by decide, ?_⟩
  · intro fileName
    by_cases h : extname fileName = ".sql"
    · simp [resolveScriptKindByExtension, sqlFilesExtensions, h]
    · by_cases h2 : extname fileName = ".js" <;>
        simp [resolveScriptKindByExtension, sqlFilesExtensions, jsFilesExtensions, h, h2]
  · intro fileName
    by_cases h : extname fileName = ".sql"
    · simp [resolveScriptKindByExtension, sqlFilesExtensions, h]
    · by_cases h2 : extname fileName = ".js" <;>
        simp [resolveScriptKindByExtension, sqlFilesExtensions, jsFilesExtensions, h, h2]
  · intro fileName h h2
    simp [resolveScriptKindByExtension, sqlFilesExtensions, jsFilesExtensions, h, h2]
  · intro version st script hk
    refine ⟨?_, ?_, ?_⟩
    · simp [runInstallScript, hk, MigrationLogger.warn]
    · simp [runInstallScript, hk, MigrationLogger.warn]
    · refine ⟨"Skip script \x27" ++ version ++ ":" ++ script.name ++ "\x27 due ", "", ?_⟩
      have hlit : ("\x27 due unknown kind of script" : String)
          = "\x27 due " ++ "unknown kind of script" := by decide
      rw [hlit]
      simp [String.append_assoc]

/-- Claim C10: for an SQL install script, the script content prefixed by EOL is
pushed to the capture trace buffer twice, once by the dispatch loop and once
inside the SQL execution helper before statement submission, so a version whose
only install script is SQL persists a log text with the content as two trace
lines. -/
theorem sql_install_double_trace (version : String) (st : MigrationLogger × List DbAction)
    (script : Script) (h : script.kind = ScriptKind.SQL) :
    (runInstallScript version st script).1.lines =
      st.1.lines ++ ["[INFO] " ++ ("Execute SQL script: " ++ script.name),
        "[TRACE] " ++ (EOL ++ script.content),
        "[TRACE] " ++ (EOL ++ script.content)] ∧
    (runInstallScript version st script).2 = st.2 ++ [DbAction.stmtExecute script.content] ∧
    ∀ (s : MigrationSources) (v : String) (b : VersionBundle) (sc : Script),
      s.getVersionBundle v = some b → b.installScripts = [(sc.name, sc)] →
      sc.kind = ScriptKind.SQL →
      (installVersionTx s v).2 =
        [DbAction.stmtExecute sc.content,
          DbAction.insertVersionLogA v (joinEOL
            ["[INFO] " ++ ("Execute SQL script: " ++ sc.name),
              "[TRACE] " ++ (EOL ++ sc.content),
              "[TRACE] " ++ (EOL ++ sc.content)])] := by
  refine ⟨?_, ?_, ?_⟩
  · simp [runInstallScript, h, executeMigrationSqlEvents, MigrationLogger.applyMsgs,
      MigrationLogger.logAt, MigrationLogger.info, MigrationLogger.trace]
  · simp [runInstallScript, h, executeMigrationSqlEvents]
  · intro s v b sc hb hscripts hkind
    unfold installVersionTx
    rw [hb]
    have hnames : sortAsc b.installScriptNames = [sc.name] := by
      simp [VersionBundle.installScriptNames, hscripts, sortAsc_idem, sortAsc_singleton]
    simp only [hnames]
    simp [runInstallScripts, runInstallScript, VersionBundle.getInstallScript, hscripts,
      alookup, hkind, executeMigrationSqlEvents, MigrationLogger.applyMsgs,
      MigrationLogger.logAt, MigrationLogger.info, MigrationLogger.trace,
      MigrationLogger.init, MigrationLogger.flush]

/-- Environment for rollback runs in which every version log row exists. -/
def envAllLogs : DialectEnv :=
  { currentVersion := some "vXXXX", versionTableExists := true,
    versionLogExists := fun _ => true }

/-- Environment in which no version log row exists. -/
def envNoLogs : DialectEnv :=
  { currentVersion := none, versionTableExists := true,
    versionLogExists := fun _ => false }

/-- Canonical sample tree for the round-trip witness. -/
def sampleTree : FsTree :=
  { versions :=
      [{ name := "v0001"
         install := some [{ name := "01-init.sql", content := "CREATE TABLE t1(a INT);" }]
         rollback := some [{ name := "01-drop.sql", content := "DROP TABLE t1;" }] },
       { name := "v0002"
         install := some []
         rollback := some [] }] }

/-- Mapper of test scenario S2. -/
def mapperS2 : String → MapInfo → String :=
  fun _ info => info.versionName ++ ":" ++ info.itemName

/-- Witness for claim C2, at the rollback plan of scenario S5. -/
theorem rollback_schedule_spec_witness :
    (MigrationManager.rollback envAllLogs sampleSources (some "v0001")).txs.map Prod.fst =
      ["vXXXX", "v0002"] ∧
    (rollbackVersionTx envAllLogs sampleSources "vXXXX").2 =
      [DbAction.isVersionLogExistQ "vXXXX" true,
        DbAction.execJavaScript "/m/vXXXX/rollback/2-drop-something.js"
          "// 2-drop-something.js rollback \n",
        DbAction.stmtExecute "DROP TABLE tx;",
        DbAction.removeVersionLogA "vXXXX"] :=
  ⟨((rollback_schedule_spec envAllLogs sampleSources (some "v0001")).1).trans (by decide),
    (((rollback_schedule_spec envAllLogs sampleSources (some "v0001")).2.2 "vXXXX" bundleVX
      (by decide) rfl).1).trans (by decide)⟩

/-- Witness for claim C3 (amended), on the canonical sample tree. -/
theorem roundtrip_spec_witness :
    List.Perm ((saveTree (loadTree "/m" sampleTree)).versions.map FsVersionDir.name)
      (sampleTree.versions.map FsVersionDir.name) ∧
    OptDirMatch ((saveTree (loadTree "/m" sampleTree)).findDir "v0001")
      (sampleTree.findDir "v0001") :=
  ⟨(roundtrip_spec "/m" sampleTree (by unfold FsTree.Wf; decide)
      (by unfold FsTree.Complete; decide)).1,
    (roundtrip_spec "/m" sampleTree (by unfold FsTree.Wf; decide)
      (by unfold FsTree.Complete; decide)).2 "v0001"⟩

/-- Witness for claim C4, with the mapper of scenario S2. -/
theorem sources_map_spec_witness :
    (sampleSources.map mapperS2).versionNames = sampleSources.versionNames ∧
    (sampleSources.mapCallLog mapperS2).Nodup :=
  ⟨(sources_map_spec sampleSources mapperS2
      (by unfold MigrationSources.Wf VersionBundle.Wf ScriptMapWf; decide)).1,
    (sources_map_spec sampleSources mapperS2
      (by unfold MigrationSources.Wf VersionBundle.Wf ScriptMapWf; decide)).2.2.2⟩

/-- Witness for claim C6, at version v0002 with no log row. -/
theorem rollback_skip_missing_log_witness :
    rollbackVersionTx envNoLogs sampleSources "v0002" =
      ([(LogLevel.warn, "Skip rollback for version \x27" ++ "v0002"
          ++ "\x27 due this does not present inside database.")],
        [DbAction.isVersionLogExistQ "v0002" false]) :=
  (rollback_skip_missing_log envNoLogs sampleSources none "v0002" rfl).1

/-- Witness for claim C7: extension dispatch on concrete file names and the
unknown-kind dispatch on the sample notes file. -/
theorem script_kind_dispatch_spec_witness :
    resolveScriptKindByExtension "01-init.sql" = ScriptKind.SQL ∧
    (runInstallScript "v0002" (MigrationLogger.init, ([] : List DbAction))
      (Script.mk "99-notes.txt" ScriptKind.UNKNOWN "/m/v0002/install/99-notes.txt"
        "just notes")).2 = [] ∧
    ∃ p q, "Skip script \x27" ++ "v0002" ++ ":" ++ "99-notes.txt"
        ++ "\x27 due unknown kind of script" = p ++ "unknown kind of script" ++ q :=
  ⟨(script_kind_dispatch_spec.1 "01-init.sql").mpr (by decide),
    (script_kind_dispatch_spec.2.2.2.2 "v0002" (MigrationLogger.init, [])
      (Script.mk "99-notes.txt" ScriptKind.UNKNOWN "/m/v0002/install/99-notes.txt"
        "just notes") rfl).2.1,
    (script_kind_dispatch_spec.2.2.2.2 "v0002" (MigrationLogger.init, [])
      (Script.mk "99-notes.txt" ScriptKind.UNKNOWN "/m/v0002/install/99-notes.txt"
        "just notes") rfl).2.2⟩

/-- Witness for claim C8 (amended), on the sample sources with the table
already present. -/
theorem version_table_setup_spec_witness :
    (DbAction.createVersionTable ∈
      (MigrationManager.install envTableExists sampleSources none).setup ↔
      envTableExists.versionTableExists = false) ∧
    DbAction.verifyVersionTableStructure ∉
      (installVersionTx sampleSources "v0001").2 :=
  ⟨(version_table_setup_spec envTableExists sampleSources none).2.1,
    (version_table_setup_spec envTableExists sampleSources none).2.2.2
      ("v0001", (installVersionTx sampleSources "v0001").2) (by decide)⟩

/-- Witness for claim C9, at an unrecognized scheme. -/
theorem load_dispatch_spec_witness :
    MigrationSources.load "ftp:" "ftp://example/m" "/m" none =
      Except.error (LoadError.notSupportedUrlSchemaError
        ("Not supported schema: " ++ "ftp://example/m")) ∧
    ∀ m1 m2 : String,
      LoadError.invalidOperationError m1 ≠ LoadError.notSupportedUrlSchemaError m2 :=
  ⟨(load_dispatch_spec "ftp://example/m" "/m" none).2.2.2.1 "ftp:"
      (by decide) (by decide) (by decide),
    (load_dispatch_spec "ftp://example/m" "/m" none).2.2.2.2⟩

/-- Witness for claim C10, on the v0001 install script of the sample sources. -/
theorem sql_install_double_trace_witness :
    (runInstallScript "v0001" (MigrationLogger.init, ([] : List DbAction)) scr01).1.lines =
      ["[INFO] Execute SQL script: 01-init.sql",
        "[TRACE] " ++ (EOL ++ "CREATE TABLE t1(a INT);"),
        "[TRACE] " ++ (EOL ++ "CREATE TABLE t1(a INT);")] ∧
    (installVersionTx sampleSources "v0001").2 =
      [DbAction.stmtExecute "CREATE TABLE t1(a INT);",
        DbAction.insertVersionLogA "v0001" (joinEOL
          ["[INFO] Execute SQL script: 01-init.sql",
            "[TRACE] " ++ (EOL ++ "CREATE TABLE t1(a INT);"),
            "[TRACE] " ++ (EOL ++ "CREATE TABLE t1(a INT);")])] := by
  refine ⟨?_, ?_⟩
  · exact ((sql_install_double_trace "v0001" (MigrationLogger.init, []) scr01 rfl).1).trans
      (by decide)
  · exact ((sql_install_double_trace "v0001" (MigrationLogger.init, []) scr01 rfl).2.2
      sampleSources "v0001" bundleV0001 scr01 (by decide) (by decide) rfl).trans (by decide)
